import Mathlib

/-!
Verification of `DEEPLEARNING/DL_DEEPLABV3SEG/nets/utils/dataset_util.py`.

The Python module is shallowly embedded: Python strings become `List Char`
(or `String` where no character-level processing happens), Python dicts
with insertion-order semantics become association lists with an in-place
update operation, Python `None` becomes `Option`, and the lazy dataset
pipeline of `read_dataset` is embedded as an explicit stage tree
(`DatasetExpr`) together with list-level semantics for the deterministic
stages (glob expansion, shard, repeat).  Floating point values are carried
opaquely (as raw bit patterns) since the code never computes on them.
-/

set_option maxHeartbeats 1000000

namespace DatasetUtil

/-! ### Feature encoders (`dataset_util.py` lines 55-72)

`tf.train.Feature` holds exactly one of an `Int64List`, `BytesList` or
`FloatList`; the encoders wrap their argument in the corresponding tagged
container.  Byte strings are modelled as lists of naturals, floats as
opaque bit patterns (`FloatBits`), since the encoders only store values.
-/

/-- An IEEE-754 value carried opaquely by its bit pattern; the code never
computes on floats, it only stores them. -/
structure FloatBits where
  bits : Nat
deriving DecidableEq

/-- `tf.train.Feature`: a tagged union holding one typed list container. -/
inductive Feature where
  | int64_list (value : List Int)
  | bytes_list (value : List (List Nat))
  | float_list (value : List FloatBits)
deriving DecidableEq

/-- `int64_feature(value)`: wraps a single integer in an `Int64List`. -/
def int64_feature (value : Int) : Feature :=
  Feature.int64_list [value]

/-- `int64_list_feature(value)`: wraps an integer sequence in an `Int64List`. -/
def int64_list_feature (value : List Int) : Feature :=
  Feature.int64_list value

/-- `bytes_feature(value)`: wraps a single byte string in a `BytesList`. -/
def bytes_feature (value : List Nat) : Feature :=
  Feature.bytes_list [value]

/-- `bytes_list_feature(value)`: wraps a byte-string sequence in a `BytesList`. -/
def bytes_list_feature (value : List (List Nat)) : Feature :=
  Feature.bytes_list value

/-- `float_list_feature(value)`: wraps a float sequence in a `FloatList`. -/
def float_list_feature (value : List FloatBits) : Feature :=
  Feature.float_list value

/-- Decoder corresponding to the int64 encoders: unwrap the tagged container. -/
def int64_contents : Feature → Option (List Int)
  | Feature.int64_list v => some v
  | _ => none

/-- Decoder corresponding to the bytes encoders: unwrap the tagged container. -/
def bytes_contents : Feature → Option (List (List Nat))
  | Feature.bytes_list v => some v
  | _ => none

/-- Decoder corresponding to the float encoder: unwrap the tagged container. -/
def float_contents : Feature → Option (List FloatBits)
  | Feature.float_list v => some v
  | _ => none

/-! ### `read_examples_list` (lines 75-94)

`read_examples_list` does `fid.readlines()` and then
`[line.strip().split(' ')[0] for line in lines]`.  File contents and lines
are modelled as `List Char`.  `readlines` splits after every newline and
keeps the terminator; `strip` removes leading and trailing Python
whitespace; `split(' ')[0]` is the prefix of the line up to the first
space character (exactly `' '`, U+0020 — not arbitrary whitespace).
-/

/-- Python `str.isspace` on a single character, for the characters
`str.strip()` removes: space, tab, newline, carriage return, form feed,
vertical tab. -/
def isPySpace (c : Char) : Bool :=
  c = ' ' || c = '\t' || c = '\n' || c = '\x0d' || c = '\x0c' || c = '\x0b'

/-- Python `str.strip()`: drop leading and trailing whitespace. -/
def pyStrip (s : List Char) : List Char :=
  ((s.dropWhile isPySpace).reverse.dropWhile isPySpace).reverse

/-- Python `s.split(' ')[0]`: the prefix of `s` up to the first space
character.  (`split(' ')` always returns a non-empty list whose head is
this prefix, also on the empty string.) -/
def firstField (s : List Char) : List Char :=
  s.takeWhile (fun c => c ≠ ' ')

/-- Python `file.readlines()`: split the content after every `'\n'`,
keeping the terminator; a trailing segment without a newline is its own
line; the empty file has no lines. -/
def readlinesAux : List Char → List Char → List (List Char)
  | [], acc => if acc.isEmpty then [] else [acc.reverse]
  | c :: rest, acc =>
    if c = '\n' then (acc.reverse ++ ['\n']) :: readlinesAux rest []
    else readlinesAux rest (c :: acc)

/-- Python `file.readlines()` on a whole file content. -/
def readlines (content : List Char) : List (List Char) :=
  readlinesAux content []

/-- `read_examples_list(path)`: read all lines of the file and map each
line to `line.strip().split(' ')[0]`.  The file is given by its content. -/
def read_examples_list (content : List Char) : List (List Char) :=
  (readlines content).map (fun line => firstField (pyStrip line))

/-! ### `recursive_parse_xml_to_dict` (lines 97-120)

An lxml element exposes a tag, a text and its children; `if not xml:`
tests for absence of children.  The returned Python value is either a
text (possibly `None`), a dict, or a list of accumulated `object`
values; dicts are association lists with Python's in-place update
semantics (`dictSet`).
-/

/-- An XML element: tag, text (`None` when absent) and children. -/
inductive Xml where
  | node (tag : String) (text : Option String) (children : List Xml)

/-- The tag of an element. -/
def tagOf : Xml → String
  | Xml.node t _ _ => t

/-- A Python value occurring in the parser's result: an element text, a
nested dict, or the list accumulated under an `object` key. -/
inductive XVal where
  | text (s : Option String)
  | dict (entries : List (String × XVal))
  | list (vals : List XVal)

/-- Python dict lookup `d[k]` on an association list (first match). -/
def dictGet : List (String × XVal) → String → Option XVal
  | [], _ => none
  | (k', v') :: d, k => if k' = k then some v' else dictGet d k

/-- Python dict assignment `d[k] = v`: replace in place if the key is
present (keeping its position), append otherwise. -/
def dictSet : List (String × XVal) → String → XVal → List (String × XVal)
  | [], k, v => [(k, v)]
  | (k', v') :: d, k, v => if k' = k then (k, v) :: d else (k', v') :: dictSet d k v

/-- The list currently stored under `k` (the parser only ever stores
lists under the `object` key, so the non-list branches are unreachable). -/
def listUnder (d : List (String × XVal)) (k : String) : List XVal :=
  match dictGet d k with
  | some (XVal.list l) => l
  | _ => []

/-- One iteration of the parser's `for child in xml` loop body, given the
child's tag and the value `child_result[child.tag]`:
`result[child.tag] = v` when the tag is not `object`, otherwise append
`v` to the list under `result['object']` (creating it when absent). -/
def storeChild (result : List (String × XVal)) (childTag : String) (v : XVal) :
    List (String × XVal) :=
  if childTag ≠ "object" then dictSet result childTag v
  else dictSet result childTag (XVal.list (listUnder result childTag ++ [v]))

mutual

/-- `recursive_parse_xml_to_dict(xml)`: a leaf returns `{tag: text}`;
otherwise parse every child in order into `result` and return
`{tag: result}`. -/
def recursive_parse_xml_to_dict : Xml → List (String × XVal)
  | Xml.node tag text [] => [(tag, XVal.text text)]
  | Xml.node tag _ (c :: cs) => [(tag, XVal.dict (parseChildren (c :: cs) []))]

/-- The parser's `for child in xml` loop over the remaining children,
threading the `result` dict. -/
def parseChildren : List Xml → List (String × XVal) → List (String × XVal)
  | [], result => result
  | child :: rest, result =>
    let cr := recursive_parse_xml_to_dict child
    let v := (dictGet cr (tagOf child)).getD (XVal.text none)
    parseChildren rest (storeChild result (tagOf child) v)

end

/-- The value `child_result[child.tag]` the loop body reads off the
recursive result (which is always a single-entry dict keyed by the
child's tag). -/
def parsedChildValue (c : Xml) : XVal :=
  (dictGet (recursive_parse_xml_to_dict c) (tagOf c)).getD (XVal.text none)

/-! ### `read_dataset` (lines 140-181)

`read_dataset` only assembles a `tf.data` pipeline; we embed the
assembled pipeline as an explicit stage tree `DatasetExpr`, abstract in
the types `F` of file-reading functions and `D` of decode functions.
`tf.matching_files` is abstracted as a `glob : String → List String`
argument; `tf.concat` of the per-pattern matches is list concatenation
in pattern order.  For the deterministic stages we additionally give
list-level semantics (`shardList`, `repeatSeq`), modelling the external
library's documented behaviour: `shard(n, i)` keeps the elements at
positions congruent to `i` modulo `n`; `repeat(n)` concatenates `n`
copies; `repeat(None)` cycles forever.
-/

/-- The fields of the `input_reader_builder.InputReader` config that
`read_dataset` reads.  `num_epochs = none` is Python `None`; together
with `0` it selects unbounded repetition via `config.num_epochs or None`. -/
structure InputReaderConfig where
  num_epochs : Option Nat
  shuffle : Bool
  filenames_shuffle_buffer_size : Nat
  shuffle_buffer_size : Nat
  num_readers : Nat
  prefetch_buffer_size : Nat

/-- Python `config.num_epochs or None`: `None` and `0` collapse to
`None` (infinite repetition), a positive count passes through. -/
def numEpochsOrNone : Option Nat → Option Nat
  | none => none
  | some 0 => none
  | some n => some n

/-- The pipeline stage tree built by `read_dataset`, abstract in the
file-reading function type `F` and the decode function type `D`. -/
inductive DatasetExpr (F D : Type) where
  | from_tensor_slices (filenames : List String)
  | shard (d : DatasetExpr F D) (num_shards index : Nat)
  | repeatData (d : DatasetExpr F D) (count : Option Nat)
  | shuffle (d : DatasetExpr F D) (buffer_size : Nat) (reshuffle_each_iteration : Bool)
  | interleave (d : DatasetExpr F D) (map_func : F) (cycle_length block_length : Nat)
  | mapData (d : DatasetExpr F D) (map_func : D) (num_parallel_calls : Nat)
  | prefetch (d : DatasetExpr F D) (buffer_size : Nat)

/-- Line 158: `tf.concat([tf.matching_files(pattern) for pattern in
input_files], 0)` — all matches of all patterns, in pattern order. -/
def expanded_filenames (glob : String → List String) (input_files : List String) :
    List String :=
  (input_files.map glob).flatten

/-- `read_dataset(file_read_func, decode_func, input_files, config,
num_workers, worker_index)` as the pipeline stage tree it assembles,
following lines 157-181 statement by statement. -/
def read_dataset {F D : Type} (file_read_func : F) (decode_func : D)
    (glob : String → List String) (input_files : List String)
    (config : InputReaderConfig) (num_workers worker_index : Nat) :
    DatasetExpr F D :=
  let filenames := expanded_filenames glob input_files
  let dataset := DatasetExpr.from_tensor_slices (F := F) (D := D) filenames
  let dataset := DatasetExpr.shard dataset num_workers worker_index
  let dataset := DatasetExpr.repeatData dataset (numEpochsOrNone config.num_epochs)
  let dataset :=
    if config.shuffle then
      DatasetExpr.shuffle dataset config.filenames_shuffle_buffer_size true
    else dataset
  let cycle_length := min config.num_readers filenames.length
  let dataset := DatasetExpr.interleave dataset file_read_func cycle_length 1
  let dataset :=
    if config.shuffle then
      DatasetExpr.shuffle dataset config.shuffle_buffer_size true
    else dataset
  let dataset := DatasetExpr.mapData dataset decode_func config.num_readers
  DatasetExpr.prefetch dataset config.prefetch_buffer_size

/-- Conditionally apply a pipeline stage (the spec's "only if
`config.shuffle` is set"). -/
def stageIf {F D : Type} (b : Bool) (stage : DatasetExpr F D → DatasetExpr F D)
    (d : DatasetExpr F D) : DatasetExpr F D :=
  if b then stage d else d

/-- The pipeline exactly as the specification words it: expand patterns,
shard by `(num_workers, worker_index)`, repeat per `num_epochs`, shuffle
filenames only if shuffling is on (re-shuffling every pass), interleave
the per-file read function with block length 1 and cycle length
`min(num_readers, matched file count)`, shuffle records only if
shuffling is on, map the decode function, prefetch — nothing else. -/
def read_dataset_spec {F D : Type} (file_read_func : F) (decode_func : D)
    (glob : String → List String) (input_files : List String)
    (config : InputReaderConfig) (num_workers worker_index : Nat) :
    DatasetExpr F D :=
  let files := expanded_filenames glob input_files
  DatasetExpr.prefetch
    (DatasetExpr.mapData
      (stageIf config.shuffle
        (fun d => DatasetExpr.shuffle d config.shuffle_buffer_size true)
        (DatasetExpr.interleave
          (stageIf config.shuffle
            (fun d => DatasetExpr.shuffle d config.filenames_shuffle_buffer_size true)
            (DatasetExpr.repeatData
              (DatasetExpr.shard (DatasetExpr.from_tensor_slices files)
                num_workers worker_index)
              (numEpochsOrNone config.num_epochs)))
          file_read_func (min config.num_readers files.length) 1))
      decode_func config.num_readers)
    config.prefetch_buffer_size

/-- The `(cycle_length, block_length)` arguments of every interleave
stage of a pipeline, outermost first. -/
def interleave_stages {F D : Type} : DatasetExpr F D → List (Nat × Nat)
  | DatasetExpr.from_tensor_slices _ => []
  | DatasetExpr.shard d _ _ => interleave_stages d
  | DatasetExpr.repeatData d _ => interleave_stages d
  | DatasetExpr.shuffle d _ _ => interleave_stages d
  | DatasetExpr.interleave d _ c b => (c, b) :: interleave_stages d
  | DatasetExpr.mapData d _ _ => interleave_stages d
  | DatasetExpr.prefetch d _ => interleave_stages d

/-- Semantics of the external `shard(n, i)` stage on a concrete file
list, per its documented modulus rule: keep the elements whose position
is congruent to `i` modulo `n`, in order. -/
def shardList {α : Type} (l : List α) (n i : Nat) : List α :=
  ((List.range l.length).filter (fun k => k % n = i)).filterMap (fun k => l[k]?)

/-- The file list `read_dataset`'s shard stage passes downstream. -/
def sharded_filenames (glob : String → List String) (input_files : List String)
    (num_workers worker_index : Nat) : List String :=
  shardList (expanded_filenames glob input_files) num_workers worker_index

/-- Semantics of the external `repeat` stage as the sequence of elements
it yields (`none` past the end): `repeat(n)` yields `n` concatenated
copies, `repeat(None)` cycles through a non-empty list forever and
yields nothing on an empty one. -/
def repeatSeq {α : Type} (l : List α) : Option Nat → Nat → Option α
  | some n, k => (List.flatten (List.replicate n l))[k]?
  | none, k => if l.length = 0 then none else l[k % l.length]?

/-- The file-path sequence produced by `read_dataset`'s expand, shard
and repeat stages (the stages before any randomised one). -/
def repeated_filenames (glob : String → List String) (input_files : List String)
    (config : InputReaderConfig) (num_workers worker_index : Nat) :
    Nat → Option String :=
  repeatSeq (sharded_filenames glob input_files num_workers worker_index)
    (numEpochsOrNone config.num_epochs)

/-! ### Helper lemmas -/

/-- The head of `dropWhile p l`, when present, fails `p`. -/
theorem head?_dropWhile_not (p : Char → Bool) (l : List Char) :
    (l.dropWhile p).head? = none ∨
      ∃ x, (l.dropWhile p).head? = some x ∧ p x = false := by
  induction l with
  | nil => exact Or.inl rfl
  | cons c rest ih =>
    by_cases h : p c
    · simpa [List.dropWhile_cons, h] using ih
    · exact Or.inr ⟨c, by simp [List.dropWhile_cons, h], by simpa using h⟩

/-! ### Claim theorems -/

/-- C7: each value encoder wraps its input in the matching tagged
container with the list contents equal to the input — the scalar
encoders (`int64_feature`, `bytes_feature`) as a singleton list, the
list encoders (`int64_list_feature`, `bytes_list_feature`,
`float_list_feature`) unchanged — so unwrapping the container recovers
the original value. -/
theorem encoders_roundtrip (i : Int) (b : List Nat) (il : List Int)
    (bl : List (List Nat)) (fl : List FloatBits)
    (_hil : il ≠ []) (_hbl : bl ≠ []) (_hfl : fl ≠ []) :
    int64_contents (int64_feature i) = some [i] ∧
    int64_contents (int64_list_feature il) = some il ∧
    bytes_contents (bytes_feature b) = some [b] ∧
    bytes_contents (bytes_list_feature bl) = some bl ∧
    float_contents (float_list_feature fl) = some fl :=
  ⟨rfl, rfl, rfl, rfl, rfl⟩

/-- Witness for C7 at concrete non-empty inputs. -/
theorem encoders_roundtrip_witness :
    (([1, 2] : List Int) ≠ [] ∧ ([[3], [4]] : List (List Nat)) ≠ [] ∧
      ([⟨5⟩] : List FloatBits) ≠ []) ∧
    (int64_contents (int64_feature 7) = some [7] ∧
      int64_contents (int64_list_feature [1, 2]) = some [1, 2] ∧
      bytes_contents (bytes_feature [9]) = some [[9]] ∧
      bytes_contents (bytes_list_feature [[3], [4]]) = some [[3], [4]] ∧
      float_contents (float_list_feature [⟨5⟩]) = some [⟨5⟩]) :=
  ⟨⟨by decide, by decide, by decide⟩,
    encoders_roundtrip 7 [9] [1, 2] [[3], [4]] [⟨5⟩]
      (by decide) (by decide) (by decide)⟩

/-- C5 counterexample: `read_examples_list` does not take the first
whitespace-delimited token — it splits on the space character only, so
on the single line `"a\t1\n"` it returns `"a\t1"` (tab kept), not the
first whitespace-delimited token `"a"`. -/
theorem read_examples_tab_counterexample :
    read_examples_list "a\t1\n".toList = ["a\t1".toList] ∧
    read_examples_list "a\t1\n".toList ≠ ["a".toList] := by
  constructor
  · rfl
  · decide

/-- C5 (amended): `read_examples_list` returns one entry per line in
file order; each entry is the stripped line's first SPACE-delimited
token: a space-free prefix of the stripped line that is either the whole
stripped line or is followed immediately by a space.  On the file
`"a 1\nb 2\nc 3\n"` it returns `["a", "b", "c"]`. -/
theorem read_examples_first_space_token (content : List Char) :
    ((read_examples_list content).length = (readlines content).length ∧
      ∀ (i : Nat) (line : List Char), (readlines content)[i]? = some line →
        ∃ e rest, (read_examples_list content)[i]? = some e ∧
          pyStrip line = e ++ rest ∧ (∀ c ∈ e, c ≠ ' ') ∧
          (rest = [] ∨ rest.head? = some ' ')) ∧
    read_examples_list "a 1\nb 2\nc 3\n".toList =
      ["a".toList, "b".toList, "c".toList] := by
  refine ⟨⟨by simp [read_examples_list], ?_⟩, by rfl⟩
  intro i line hline
  refine ⟨firstField (pyStrip line), (pyStrip line).dropWhile (fun c => c ≠ ' '),
    ?_, ?_, ?_, ?_⟩
  · simp [read_examples_list, List.getElem?_map, hline]
  · exact (List.takeWhile_append_dropWhile _ _).symm
  · intro c hc
    have := List.mem_takeWhile_imp hc
    simpa using this
  · rcases head?_dropWhile_not (fun c => c ≠ ' ') (pyStrip line) with h | ⟨x, hx, hpx⟩
    · left
      exact List.head?_eq_none_iff.mp h
    · right
      have hx' : x = ' ' := by simpa using hpx
      rw [hx, hx']

/-- Witness for C5's amended theorem at the file `"a 1\nb 2\nc 3\n"`. -/
theorem read_examples_first_space_token_witness :
    ((readlines "a 1\nb 2\nc 3\n".toList)[0]? = some "a 1\n".toList) ∧
    (∃ e rest, (read_examples_list "a 1\nb 2\nc 3\n".toList)[0]? = some e ∧
      pyStrip "a 1\n".toList = e ++ rest ∧ (∀ c ∈ e, c ≠ ' ') ∧
      (rest = [] ∨ rest.head? = some ' ')) :=
  ⟨rfl, (read_examples_first_space_token "a 1\nb 2\nc 3\n".toList).1.2 0
    "a 1\n".toList rfl⟩

/-- C10: `read_examples_list` yields exactly one entry per input line
(no line is skipped), and a blank or whitespace-only line yields the
empty identifier string. -/
theorem read_examples_one_entry_per_line (content : List Char) :
    (read_examples_list content).length = (readlines content).length ∧
    ∀ (i : Nat) (line : List Char), (readlines content)[i]? = some line →
      (∀ c ∈ line, isPySpace c = true) →
      (read_examples_list content)[i]? = some [] := by
  refine ⟨by simp [read_examples_list], ?_⟩
  intro i line hline hsp
  have hdrop : line.dropWhile isPySpace = [] := List.dropWhile_eq_nil_iff.mpr hsp
  have hstrip : pyStrip line = [] := by simp [pyStrip, hdrop]
  simp [read_examples_list, List.getElem?_map, hline, hstrip, firstField]

/-- Witness for C10 on the whitespace-only line `" \t\n"`. -/
theorem read_examples_one_entry_per_line_witness :
    ((readlines " \t\n".toList)[0]? = some [' ', '\t', '\n']) ∧
    (∀ c ∈ ([' ', '\t', '\n'] : List Char), isPySpace c = true) ∧
    (read_examples_list " \t\n".toList)[0]? = some [] :=
  ⟨rfl, by decide,
    (read_examples_one_entry_per_line " \t\n".toList).2 0 [' ', '\t', '\n']
      rfl (by decide)⟩

/-- C2 counterexample: on `<root><object>A</object><object>B</object></root>`
the parser does NOT accumulate the parsed child results (the single-entry
dicts `{"object": "A"}`) — it appends `child_result[child.tag]`, the
unwrapped child value, so the accumulated list is `["A", "B"]`. -/
theorem parse_two_objects_counterexample :
    recursive_parse_xml_to_dict
        (Xml.node "root" none
          [Xml.node "object" (some "A") [], Xml.node "object" (some "B") []]) ≠
      [("root", XVal.dict [("object", XVal.list
        [XVal.dict [("object", XVal.text (some "A"))],
         XVal.dict [("object", XVal.text (some "B"))]])])] := by
  simp [recursive_parse_xml_to_dict, parseChildren, storeChild, dictGet, dictSet,
    listUnder, tagOf]

/-- C2 (amended): on a node whose children are exactly two leaf `object`
elements with texts `a` and `b`, the parser returns the single-entry
mapping from the node's tag to `{"object": [a, b]}`: an ordered sequence
of length 2 holding the unwrapped child values (the texts), in document
order — not the wrapping single-entry child dicts. -/
theorem parse_two_object_leaves (tag : String) (tx a b : Option String) :
    recursive_parse_xml_to_dict
        (Xml.node tag tx [Xml.node "object" a [], Xml.node "object" b []]) =
      [(tag, XVal.dict [("object", XVal.list [XVal.text a, XVal.text b])])] := by
  simp [recursive_parse_xml_to_dict, parseChildren, storeChild, dictGet, dictSet,
    listUnder, tagOf]

/-- Looking up the key just assigned returns the assigned value. -/
theorem dictGet_dictSet_self (d : List (String × XVal)) (k : String) (v : XVal) :
    dictGet (dictSet d k v) k = some v := by
  induction d with
  | nil => simp [dictSet, dictGet]
  | cons p d ih =>
    obtain ⟨k', v'⟩ := p
    by_cases h : k' = k
    · simp [dictSet, dictGet, h]
    · simp [dictSet, dictGet, h, ih]

/-- Assignment to one key leaves lookups of other keys unchanged. -/
theorem dictGet_dictSet_ne (d : List (String × XVal)) (k t : String) (v : XVal)
    (h : k ≠ t) : dictGet (dictSet d k v) t = dictGet d t := by
  induction d with
  | nil => simp [dictSet, dictGet, h]
  | cons p d ih =>
    obtain ⟨k', v'⟩ := p
    by_cases h' : k' = k
    · subst h'; simp [dictSet, dictGet, h]
    · simp [dictSet, dictGet, h', ih]

/-- The loop body only writes the processed child's tag. -/
theorem dictGet_storeChild_ne (r : List (String × XVal)) (ct t : String) (v : XVal)
    (h : ct ≠ t) : dictGet (storeChild r ct v) t = dictGet r t := by
  unfold storeChild
  split <;> exact dictGet_dictSet_ne _ _ _ _ h

/-- Writing a non-`object` key stores exactly the written value. -/
theorem dictGet_storeChild_self (r : List (String × XVal)) (ct : String)
    (v : XVal) (h : ct ≠ "object") : dictGet (storeChild r ct v) ct = some v := by
  simp only [storeChild, if_pos h]
  exact dictGet_dictSet_self r ct v

/-- What the parser's child loop leaves under a non-`object` key: the
value of the last same-tagged child processed, and the initial dict's
value when no child has that tag. -/
theorem dictGet_parseChildren (cs : List Xml) (r : List (String × XVal))
    (t : String) (ht : t ≠ "object") :
    dictGet (parseChildren cs r) t =
      match (cs.filter (fun c => tagOf c = t)).getLast? with
      | some c => some (parsedChildValue c)
      | none => dictGet r t := by
  induction cs generalizing r with
  | nil => simp [parseChildren]
  | cons c rest ih =>
    simp only [parseChildren]
    rw [ih]
    by_cases hct : tagOf c = t
    · rw [List.filter_cons_of_pos (by simp [hct])]
      cases hf : rest.filter (fun x => tagOf x = t) with
      | nil =>
        subst hct
        simp [dictGet_storeChild_self r (tagOf c) _ ht, parsedChildValue]
      | cons c' l' =>
        rw [List.getLast?_cons_cons]
        cases hl : (c' :: l').getLast? with
        | none => simp [List.getLast?_eq_none_iff] at hl
        | some x => rfl
    · rw [List.filter_cons_of_neg (by simp [hct])]
      cases hf : rest.filter (fun x => tagOf x = t) with
      | nil =>
        simpa using dictGet_storeChild_ne r (tagOf c) t _ hct
      | cons c' l' =>
        rfl

/-- C8: when two or more children of a node share the same non-`object`
tag `t`, the parser stores under `t` only the parsed value of the last
such child in document order; earlier occurrences are overwritten, none
is accumulated into a list, and no error is raised (the parse is a total
function). -/
theorem parse_last_wins (tag : String) (tx : Option String) (cs : List Xml)
    (t : String) (ht : t ≠ "object")
    (h2 : 2 ≤ (cs.filter (fun c => tagOf c = t)).length) :
    ∃ d, recursive_parse_xml_to_dict (Xml.node tag tx cs) = [(tag, XVal.dict d)] ∧
      dictGet d t =
        (cs.filter (fun c => tagOf c = t)).getLast?.map parsedChildValue := by
  cases cs with
  | nil => simp at h2
  | cons c rest =>
    refine ⟨parseChildren (c :: rest) [], rfl, ?_⟩
    rw [dictGet_parseChildren _ _ _ ht]
    cases hl : ((c :: rest).filter (fun x => tagOf x = t)).getLast? with
    | none => rfl
    | some x => rfl

/-- Witness for C8: `<r><a>1</a><a>2</a></r>` keeps only `{"a": "2"}`. -/
theorem parse_last_wins_witness :
    (("a" : String) ≠ "object" ∧
      2 ≤ (([Xml.node "a" (some "1") [], Xml.node "a" (some "2") []].filter
        (fun c => tagOf c = "a")).length)) ∧
    (∃ d, recursive_parse_xml_to_dict
          (Xml.node "r" none
            [Xml.node "a" (some "1") [], Xml.node "a" (some "2") []]) =
        [("r", XVal.dict d)] ∧
      dictGet d "a" =
        ([Xml.node "a" (some "1") [], Xml.node "a" (some "2") []].filter
          (fun c => tagOf c = "a")).getLast?.map parsedChildValue) :=
  ⟨⟨by decide, by simp [tagOf]⟩,
    parse_last_wins "r" none
      [Xml.node "a" (some "1") [], Xml.node "a" (some "2") []] "a"
      (by decide) (by simp [tagOf])⟩

/-- Membership in a shard: exactly the elements sitting at a position
congruent to the shard index. -/
theorem mem_shardList {α : Type} (l : List α) (n i : Nat) (x : α) :
    x ∈ shardList l n i ↔ ∃ k, k % n = i ∧ l[k]? = some x := by
  simp only [shardList, List.mem_filterMap, List.mem_filter, List.mem_range]
  constructor
  · rintro ⟨k, ⟨hk, hmod⟩, hget⟩
    exact ⟨k, by simpa using hmod, hget⟩
  · rintro ⟨k, hmod, hget⟩
    have hk : k < l.length := by
      by_contra hcon
      rw [List.getElem?_eq_none (Nat.le_of_not_lt hcon)] at hget
      cases hget
    exact ⟨k, ⟨hk, by simpa using hmod⟩, hget⟩

/-- C3 counterexample: when the expanded file list contains the same
path twice (here both patterns match the same file — the pattern list
is `["p"]` and the glob yields `["a", "a"]`), the file SETS of two
distinct workers are not disjoint: worker 0 and worker 1 of 2 both
receive the file `"a"`. -/
theorem shard_sets_not_disjoint_counterexample :
    "a" ∈ sharded_filenames (fun _ => ["a", "a"]) ["p"] 2 0 ∧
    "a" ∈ sharded_filenames (fun _ => ["a", "a"]) ["p"] 2 1 ∧
    (0 : Nat) ≠ 1 := by
  refine ⟨?_, ?_, by decide⟩ <;> decide

/-- C3 (amended): each worker receives exactly the files at positions
congruent to its index modulo `num_workers`; the union of the shards
over all worker indices is the full expanded file set, and — provided
the expanded file list has no duplicate paths — the file sets of
distinct workers are pairwise disjoint. -/
theorem shard_partition (glob : String → List String) (input_files : List String)
    (n : Nat) (hn : 0 < n) :
    (∀ i x, x ∈ sharded_filenames glob input_files n i ↔
      ∃ k, k % n = i ∧ (expanded_filenames glob input_files)[k]? = some x) ∧
    ((expanded_filenames glob input_files).Nodup →
      ∀ i j, i < n → j < n → i ≠ j → ∀ x,
      x ∈ sharded_filenames glob input_files n i →
      x ∉ sharded_filenames glob input_files n j) ∧
    (∀ x, x ∈ expanded_filenames glob input_files ↔
      ∃ i, i < n ∧ x ∈ sharded_filenames glob input_files n i) := by
  refine ⟨fun i x => mem_shardList _ n i x, ?_, ?_⟩
  · intro hnd i j _ _ hij x hxi hxj
    rcases (mem_shardList _ n i x).mp hxi with ⟨k1, hk1, hg1⟩
    rcases (mem_shardList _ n j x).mp hxj with ⟨k2, hk2, hg2⟩
    have hlt : k1 < (expanded_filenames glob input_files).length := by
      rcases List.getElem?_eq_some.mp hg1 with ⟨h, _⟩
      exact h
    have hkk : k1 = k2 := List.getElem?_inj hlt hnd (hg1.trans hg2.symm)
    exact hij (hk1 ▸ hkk ▸ hk2)
  · intro x
    constructor
    · intro hx
      rcases List.mem_iff_getElem?.mp hx with ⟨k, hk⟩
      exact ⟨k % n, Nat.mod_lt _ hn, (mem_shardList _ n _ x).mpr ⟨k, rfl, hk⟩⟩
    · rintro ⟨i, _, hx⟩
      rcases (mem_shardList _ n i x).mp hx with ⟨k, _, hg⟩
      exact List.mem_iff_getElem?.mpr ⟨k, hg⟩

/-- Witness for C3's amended theorem on three distinct files and two
workers. -/
theorem shard_partition_witness :
    ((0 : Nat) < 2) ∧
    ((∀ i x, x ∈ sharded_filenames (fun _ => ["a", "b", "c"]) ["p"] 2 i ↔
      ∃ k, k % 2 = i ∧ (expanded_filenames (fun _ => ["a", "b", "c"]) ["p"])[k]? = some x) ∧
    ((expanded_filenames (fun _ => ["a", "b", "c"]) ["p"]).Nodup →
      ∀ i j, i < 2 → j < 2 → i ≠ j → ∀ x,
      x ∈ sharded_filenames (fun _ => ["a", "b", "c"]) ["p"] 2 i →
      x ∉ sharded_filenames (fun _ => ["a", "b", "c"]) ["p"] 2 j) ∧
    (∀ x, x ∈ expanded_filenames (fun _ => ["a", "b", "c"]) ["p"] ↔
      ∃ i, i < 2 ∧ x ∈ sharded_filenames (fun _ => ["a", "b", "c"]) ["p"] 2 i)) :=
  ⟨by decide,
    shard_partition (fun _ => ["a", "b", "c"]) ["p"] 2 (by decide)⟩

/-- C4: with `num_epochs` unset (`None`) or `0`, the file-path sequence
produced by the expand/shard/repeat stages is unbounded on a non-empty
shard (it yields an element at every index); with `num_epochs = n > 0`
it is exactly `n` concatenated repetitions of the shard and is finite
(empty past index `n * shard length`). -/
theorem repeat_epochs_semantics (glob : String → List String)
    (input_files : List String) (config : InputReaderConfig)
    (num_workers worker_index : Nat) :
    ((config.num_epochs = none ∨ config.num_epochs = some 0) →
      sharded_filenames glob input_files num_workers worker_index ≠ [] →
      ∀ k, repeated_filenames glob input_files config num_workers worker_index k ≠
        none) ∧
    (∀ n, config.num_epochs = some n → 0 < n →
      (∀ k, repeated_filenames glob input_files config num_workers worker_index k =
        (List.flatten (List.replicate n
          (sharded_filenames glob input_files num_workers worker_index)))[k]?) ∧
      (∀ k,
        n * (sharded_filenames glob input_files num_workers worker_index).length ≤ k →
        repeated_filenames glob input_files config num_workers worker_index k =
          none)) := by
  constructor
  · intro he hs k
    have hnone : numEpochsOrNone config.num_epochs = none := by
      rcases he with h | h <;> simp [numEpochsOrNone, h]
    have hlen :
        (sharded_filenames glob input_files num_workers worker_index).length ≠ 0 := by
      simpa [List.length_eq_zero] using hs
    have hmod : k % (sharded_filenames glob input_files num_workers worker_index).length <
        (sharded_filenames glob input_files num_workers worker_index).length :=
      Nat.mod_lt _ (Nat.pos_of_ne_zero hlen)
    simp [repeated_filenames, repeatSeq, hnone, hlen,
      List.getElem?_eq_getElem hmod]
  · intro n hn hpos
    obtain ⟨m, rfl⟩ : ∃ m, n = m + 1 := ⟨n - 1, (Nat.succ_pred_eq_of_pos hpos).symm⟩
    have harm : numEpochsOrNone config.num_epochs = some (m + 1) := by
      simp [numEpochsOrNone, hn]
    constructor
    · intro k
      simp [repeated_filenames, repeatSeq, harm]
    · intro k hk
      have hlenf : (List.flatten (List.replicate (m + 1)
          (sharded_filenames glob input_files num_workers worker_index))).length =
          (m + 1) *
            (sharded_filenames glob input_files num_workers worker_index).length := by
        simp [List.length_flatten, List.map_replicate, List.sum_replicate,
          smul_eq_mul]
      simp only [repeated_filenames, harm, repeatSeq]
      exact List.getElem?_eq_none (le_trans (le_of_eq hlenf) hk)

/-- Witness for C4 with `num_epochs = 2` over the single file `"f"`. -/
theorem repeat_epochs_semantics_witness :
    ((some 2 = some 2 ∨ False) ∧ (0 : Nat) < 2) ∧
    ((∀ k, repeated_filenames (fun _ => ["f"]) ["p"]
        ⟨some 2, false, 0, 0, 1, 0⟩ 1 0 k =
      (List.flatten (List.replicate 2
        (sharded_filenames (fun _ => ["f"]) ["p"] 1 0)))[k]?) ∧
    (∀ k, 2 * (sharded_filenames (fun _ => ["f"]) ["p"] 1 0).length ≤ k →
      repeated_filenames (fun _ => ["f"]) ["p"] ⟨some 2, false, 0, 0, 1, 0⟩ 1 0 k =
        none)) :=
  ⟨⟨Or.inl rfl, by decide⟩,
    (repeat_epochs_semantics (fun _ => ["f"]) ["p"]
      ⟨some 2, false, 0, 0, 1, 0⟩ 1 0).2 2 rfl (by decide)⟩

/-- C9: when no pattern matches any file, the assembled pipeline's file
sequence is empty at every stage — the expanded file list is empty, the
shard is empty, and the repeated file-path sequence yields nothing at
every index — and no error is raised (`read_dataset` and its stage
semantics are total functions). -/
theorem empty_glob_empty_pipeline (glob : String → List String)
    (input_files : List String) (config : InputReaderConfig)
    (num_workers worker_index : Nat)
    (h : ∀ p ∈ input_files, glob p = []) :
    expanded_filenames glob input_files = [] ∧
    sharded_filenames glob input_files num_workers worker_index = [] ∧
    ∀ k, repeated_filenames glob input_files config num_workers worker_index k =
      none := by
  have hexp : expanded_filenames glob input_files = [] := by
    rw [expanded_filenames, List.flatten_eq_nil_iff]
    intro l hl
    rcases List.mem_map.mp hl with ⟨p, hp, rfl⟩
    exact h p hp
  have hsh : sharded_filenames glob input_files num_workers worker_index = [] := by
    rw [sharded_filenames, hexp]
    rfl
  refine ⟨hexp, hsh, ?_⟩
  intro k
  rw [repeated_filenames, hsh]
  cases he : numEpochsOrNone config.num_epochs with
  | none => simp [repeatSeq]
  | some n =>
    have hlenf : (List.flatten (List.replicate n ([] : List String))).length = 0 := by
      simp
    simp only [repeatSeq]
    exact List.getElem?_eq_none (by rw [hlenf]; exact Nat.zero_le k)

/-- Witness for C9: one pattern, a glob matching nothing. -/
theorem empty_glob_empty_pipeline_witness :
    (∀ p ∈ (["*.record"] : List String), (fun (_ : String) => ([] : List String)) p = []) ∧
    (expanded_filenames (fun _ => []) ["*.record"] = [] ∧
      sharded_filenames (fun _ => []) ["*.record"] 1 0 = [] ∧
      ∀ k, repeated_filenames (fun _ => []) ["*.record"]
        ⟨none, true, 100, 2048, 64, 512⟩ 1 0 k = none) :=
  ⟨fun _ _ => rfl,
    empty_glob_empty_pipeline (fun _ => []) ["*.record"]
      ⟨none, true, 100, 2048, 64, 512⟩ 1 0 (fun _ _ => rfl)⟩

/-- C6: the interleave stage `read_dataset` assembles is unique, its
`cycle_length` is `min(config.num_readers, total matched file count
across all patterns before sharding)`, and its `block_length` is 1. -/
theorem interleave_cycle_block {F D : Type} (f : F) (d : D)
    (glob : String → List String) (input_files : List String)
    (config : InputReaderConfig) (num_workers worker_index : Nat) :
    interleave_stages
        (read_dataset f d glob input_files config num_workers worker_index) =
      [(min config.num_readers (expanded_filenames glob input_files).length, 1)] := by
  cases hs : config.shuffle <;>
    simp [read_dataset, interleave_stages, hs]

/-- C1: `read_dataset` assembles exactly the stage sequence the
specification states — expand patterns, shard, repeat, shuffle filenames
(only if shuffling is on, re-shuffling each pass), interleave with block
length 1, shuffle records (only if shuffling is on), map the decode
function, prefetch — with no other stage interposed or reordered: it
equals the pipeline written out stage by stage from the spec. -/
theorem read_dataset_matches_spec {F D : Type} (f : F) (d : D)
    (glob : String → List String) (input_files : List String)
    (config : InputReaderConfig) (num_workers worker_index : Nat) :
    read_dataset f d glob input_files config num_workers worker_index =
      read_dataset_spec f d glob input_files config num_workers worker_index := by
  cases hs : config.shuffle <;>
    simp [read_dataset, read_dataset_spec, stageIf, hs]

end DatasetUtil
